import Mathlib

/-!
Verification of the mask/CIDR parsing and network arithmetic of
`getmask.py` (whatmask-python).  The Python functions `parse_mask`,
`mask_to_info` and `network_info` are shallowly embedded as pure Lean
functions over `List Char`.  IPv4 quantities are `Nat` values below
`2 ^ 32`; fallible computations return `Except`/`Option`, where `none`
stands for an unhandled Python exception and an `Except.error` for the
classified print-and-exit failures of `parse_mask`.  Python `str` methods
are modelled for ASCII input (Unicode digits/letters are out of scope of
the tool's inputs).
-/

/-- Whitespace characters stripped by Python `int(str)` conversion. -/
def wsChar (c : Char) : Bool :=
  c = ' ' || c = '\t' || c = '\n' || c = '\x0d' || c = '\x0b' || c = '\x0c'

/-- Python `s.split(".")` on a list of characters: splits at every dot and
keeps empty fragments, so the result is always non-empty. -/
def splitDot : List Char → List (List Char)
  | [] => [[]]
  | c :: rest =>
    match splitDot rest with
    | [] => [[]]
    | p :: ps => if c = '.' then [] :: p :: ps else (c :: p) :: ps

/-- Drop trailing whitespace, as Python `int` does before conversion. -/
def trimRightWS : List Char → List Char
  | [] => []
  | c :: rest =>
    let r := trimRightWS rest
    if r.isEmpty then (if wsChar c then [] else [c]) else c :: r

/-- Numeric value of a list of decimal digit characters (most significant
first). -/
def digitsToNat (l : List Char) : Nat :=
  l.foldl (fun a c => 10 * a + (c.toNat - 48)) 0

/-- Hexadecimal digit recognizer (both cases), as accepted by
Python `int(s, 16)`. -/
def isHexDig (c : Char) : Bool :=
  c.isDigit || ('a' ≤ c && c ≤ 'f') || ('A' ≤ c && c ≤ 'F')

/-- Value of one hexadecimal digit character. -/
def hexDigitVal (c : Char) : Nat :=
  if c.isDigit then c.toNat - 48 else if 'a' ≤ c then c.toNat - 87 else c.toNat - 55

/-- Numeric value of a list of hexadecimal digit characters (most
significant first). -/
def hexFromDigits (l : List Char) : Nat :=
  l.foldl (fun a c => 16 * a + hexDigitVal c) 0

/-- Python `s.startswith("0x")`. -/
def startsWith0x : List Char → Bool
  | c1 :: c2 :: _ => c1 = '0' && c2 = 'x'
  | _ => false

/-- Decimal digit run with single underscores allowed between digits, the
grammar of the digit part of Python `int(s)`; scanned after an initial
digit was consumed. -/
def isUDigitsAux : List Char → Bool
  | [] => true
  | c :: rest =>
    if c = '_' then
      match rest with
      | [] => false
      | d :: r2 => d.isDigit && isUDigitsAux r2
    else c.isDigit && isUDigitsAux rest

/-- Non-empty decimal digit run with single underscores between digits. -/
def isUDigits : List Char → Bool
  | [] => false
  | c :: rest => c.isDigit && isUDigitsAux rest

/-- Hexadecimal digit run with single underscores between digits; scanned
after an initial hex digit was consumed. -/
def isHexUDAux : List Char → Bool
  | [] => true
  | c :: rest =>
    if c = '_' then
      match rest with
      | [] => false
      | d :: r2 => isHexDig d && isHexUDAux r2
    else isHexDig c && isHexUDAux rest

/-- Non-empty hexadecimal digit run with single underscores between
digits. -/
def isHexUD : List Char → Bool
  | [] => false
  | c :: rest => isHexDig c && isHexUDAux rest

/-- Digits of a hex literal after the `0x` base marker: Python additionally
allows one underscore directly after the marker. -/
def isHexTail : List Char → Bool
  | [] => false
  | c :: r => if c = '_' then isHexUD r else isHexUD (c :: r)

/-- Python `int(s)` on a string: optional surrounding whitespace, optional
sign, then decimal digits with optional single underscores between
digits; `none` models the `ValueError` raised otherwise. -/
def pyIntValue (l : List Char) : Option Int :=
  match trimRightWS (l.dropWhile wsChar) with
  | '-' :: r =>
    if isUDigits r then some (-(digitsToNat (r.filter (fun c => c ≠ '_')) : Int)) else none
  | '+' :: r =>
    if isUDigits r then some ((digitsToNat (r.filter (fun c => c ≠ '_')) : Int)) else none
  | r =>
    if isUDigits r then some ((digitsToNat (r.filter (fun c => c ≠ '_')) : Int)) else none

/-- Python `int(s, 16)` applied to a token that begins with the literal
characters `0x` (the only way `parse_mask` reaches it): the rest must be
hex digits with optional underscores, optionally followed by whitespace. -/
def pyHexValue : List Char → Option Nat
  | '0' :: 'x' :: rest =>
    let r := trimRightWS rest
    if isHexTail r then some (hexFromDigits (r.filter (fun c => c ≠ '_'))) else none
  | _ => none

/-- One octet of a dotted-quad IPv4 address as validated by
`ipaddress.IPv4Address`: 1 to 3 ASCII digits, no leading zero, value at
most 255. -/
def isValidOctet : List Char → Bool
  | [] => false
  | c :: rest =>
    c.isDigit && rest.all Char.isDigit && rest.length ≤ 2 &&
      (rest.isEmpty || c ≠ '0') && digitsToNat (c :: rest) ≤ 255

/-- `ipaddress.IPv4Address` applied to a string: four valid octets
separated by dots; returns the 32-bit value. -/
def parseIPv4 (t : List Char) : Option Nat :=
  match splitDot t with
  | [a, b, c, d] =>
    if isValidOctet a && isValidOctet b && isValidOctet c && isValidOctet d then
      some (((digitsToNat a * 256 + digitsToNat b) * 256 + digitsToNat c) * 256 + digitsToNat d)
    else none
  | _ => none

/-- Whether a token is a syntactically valid dotted-quad IPv4 address. -/
def isValidIPv4 (t : List Char) : Bool :=
  (parseIPv4 t).isSome

/-- Decimal rendering of a natural number, as Python `str(n)`. -/
def natDecimal (n : Nat) : List Char :=
  Nat.toDigits 10 n

/-- Dotted-decimal rendering of a 32-bit value, as
`str(ipaddress.IPv4Address(v))`. -/
def ipToDotted (v : Nat) : List Char :=
  natDecimal (v / 16777216 % 256) ++ '.' ::
    (natDecimal (v / 65536 % 256) ++ '.' ::
      (natDecimal (v / 256 % 256) ++ '.' :: natDecimal (v % 256)))

/-- Netmask value of a prefix length, as `ipaddress` computes it:
`ALL_ONES ^ (ALL_ONES >> n)`. -/
def maskOfCidr (n : Nat) : Nat :=
  0xFFFFFFFF ^^^ (0xFFFFFFFF >>> n)

/-- Prefix length of a 32-bit value that is a contiguous
ones-then-zeros netmask (`ipaddress._prefix_from_ip_int`), `none` when the
bit pattern is not contiguous. -/
def prefixOfMaskInt (v : Nat) : Option Nat :=
  (List.range 33).find? (fun n => maskOfCidr n == v)

/-- Mask half of `ipaddress.IPv4Network(addr)`: either an all-digit prefix
length at most 32, or a dotted-quad that is a valid netmask, or a
dotted-quad whose complement is a valid netmask (a hostmask).  `none`
models the `NetmaskValueError`. -/
def prefixFromString (m : List Char) : Option Nat :=
  if !m.isEmpty && m.all Char.isDigit then
    if digitsToNat m ≤ 32 then some (digitsToNat m) else none
  else
    match parseIPv4 m with
    | none => none
    | some v =>
      match prefixOfMaskInt v with
      | some n => some n
      | none => prefixOfMaskInt (0xFFFFFFFF ^^^ v)

/-- Classified failures of `parse_mask`: `invalidFormat` is the
`print("Invalid mask format."); sys.exit(1)` path, `ambiguousIpInput` the
"looks like an IP address" warning-then-exit path. -/
inductive MaskError
  | invalidFormat
  | ambiguousIpInput
deriving DecidableEq

/-- Shallow embedding of `parse_mask(mask_str, suppress_ip_warning)` from
`getmask.py`.  The branches follow the source: `0x` prefix first, then
rejection of alphabetic characters, then the dotted four-part form (valid
IPv4 addresses are ambiguous and rejected unless the warning is
suppressed; otherwise each part is converted by `int` and compared with
255), then a single all-digit CIDR token. -/
def parse_maskL (t : List Char) (suppressIpWarning : Bool) : Except MaskError (List Char) :=
  if startsWith0x t then
    match pyHexValue t with
    | some v => if v ≤ 0xFFFFFFFF then .ok (ipToDotted v) else .error .invalidFormat
    | none => .error .invalidFormat
  else if t.any Char.isAlpha then .error .invalidFormat
  else
    match splitDot t with
    | [a, b, c, d] =>
      if isValidIPv4 t then
        if suppressIpWarning then .ok t else .error .ambiguousIpInput
      else
        match ([a, b, c, d] : List (List Char)).mapM pyIntValue with
        | some vs => if vs.any (fun v => 255 < v) then .error .invalidFormat else .ok t
        | none => .error .invalidFormat
    | [p] =>
      if !p.isEmpty && p.all Char.isDigit then
        if digitsToNat p ≤ 32 then .ok (ipToDotted (maskOfCidr (digitsToNat p)))
        else .error .invalidFormat
      else .error .invalidFormat
    | _ => .error .invalidFormat

/-- Usable host count reported by `getmask.py`:
`(2 ** (32 - cidr)) - 2 if cidr < 31 else (2 ** (32 - cidr))`. -/
def usableOf (cidr : Nat) : Int :=
  if cidr < 31 then 2 ^ (32 - cidr) - 2 else 2 ^ (32 - cidr)

/-- Result record of `mask_to_info` (the values it prints). -/
structure MaskInfo where
  cidr : Nat
  netmask : Nat
  wildcard : Nat
  usable : Int
deriving DecidableEq

/-- Shallow embedding of `mask_to_info(mask_str)`: `none` models an
unhandled exception from `IPv4Address(mask_str)` or
`IPv4Network("0.0.0.0/" + mask_str)`. -/
def mask_to_info (m : List Char) : Option MaskInfo :=
  match parseIPv4 m with
  | none => none
  | some v =>
    match prefixFromString m with
    | none => none
    | some cidr => some ⟨cidr, v, 0xFFFFFFFF ^^^ v, usableOf cidr⟩

/-- Result record of `network_info` (the values it prints). -/
structure NetworkInfo where
  cidr : Nat
  netmask : Nat
  wildcard : Nat
  networkAddress : Nat
  broadcastAddress : Nat
  usable : Int
  firstUsable : Nat
  lastUsable : Nat
deriving DecidableEq

/-- The record `network_info` derives from a parsed IP value and prefix
length, including the `hosts()` endpoints of `IPv4Network` (for /31 the
hosts are the network and broadcast addresses themselves, for /32 the
single address) and the `usable >= 2` fallback of lines 120-121 and
137-139 of `getmask.py`. -/
def mkNetworkInfo (ipV cidr : Nat) : NetworkInfo :=
  let netmaskV := maskOfCidr cidr
  let wildcardV := 0xFFFFFFFF ^^^ netmaskV
  let netA := ipV &&& netmaskV
  let bcA := netA ||| wildcardV
  let usable := usableOf cidr
  let hostsFirst := if cidr = 31 then netA else if cidr = 32 then netA else netA + 1
  let hostsLast := if cidr = 31 then bcA else if cidr = 32 then netA else bcA - 1
  ⟨cidr, netmaskV, wildcardV, netA, bcA, usable,
    if 2 ≤ usable then hostsFirst else netA,
    if 2 ≤ usable then hostsLast else bcA⟩

/-- Shallow embedding of `network_info(ip_str, mask_str)`: the mask token
goes through `parse_mask` with the IP warning suppressed (a classified
exit), then `IPv4Network(f"{ip_str}/{mask}", strict=False)` parses the
address and the mask; `Except.ok none` models an unhandled exception
there. -/
def network_info (ip tok : List Char) : Except MaskError (Option NetworkInfo) :=
  match parse_maskL tok true with
  | .error e => .error e
  | .ok m =>
    match parseIPv4 ip, prefixFromString m with
    | some ipV, some cidr => .ok (some (mkNetworkInfo ipV cidr))
    | _, _ => .ok none

/-- Hexadecimal digit character for a value below 16 (lowercase, as
Python `hex` renders). -/
def hexDigitChar (d : Nat) : Char :=
  if d < 10 then Char.ofNat (48 + d) else Char.ofNat (87 + d)

/-- Hexadecimal rendering of a natural number, most significant digit
first. -/
def hexChars (v : Nat) : List Char :=
  if v = 0 then ['0'] else ((Nat.digits 16 v).map hexDigitChar).reverse

/-- The token `0x` followed by the hexadecimal rendering of v, as a
Python hex literal. -/
def hexToken (v : Nat) : List Char :=
  '0' :: 'x' :: hexChars v

/-- Equality of `Except` results is decidable when both components are,
so parser outcomes can be checked by evaluation. -/
instance instDecEqExcept {ε α : Type} [DecidableEq ε] [DecidableEq α] :
    DecidableEq (Except ε α) := fun x y =>
  match x, y with
  | .error a, .error b =>
    if h : a = b then .isTrue (by rw [h])
    else .isFalse (by intro he; cases he; exact h rfl)
  | .error _, .ok _ => .isFalse (by intro h; cases h)
  | .ok _, .error _ => .isFalse (by intro h; cases h)
  | .ok a, .ok b =>
    if h : a = b then .isTrue (by rw [h])
    else .isFalse (by intro he; cases he; exact h rfl)

/-! ### Character and split lemmas -/

/-- A decimal digit character is not alphabetic, so the alphabetic
rejection of `parse_mask` never fires on digit-only tokens. -/
theorem isAlpha_eq_false_of_isDigit (c : Char) (h : c.isDigit = true) : c.isAlpha = false := by
  simp only [Char.isDigit, Char.isAlpha, Char.isUpper, Char.isLower, decide_eq_true_eq,
    Bool.and_eq_true, Bool.or_eq_false_iff, Bool.and_eq_false_iff, decide_eq_false_iff_not,
    GE.ge, UInt32.le_def, BitVec.le_def,
    show (UInt32.toBitVec 48).toNat = 48 from rfl, show (UInt32.toBitVec 57).toNat = 57 from rfl,
    show (UInt32.toBitVec 65).toNat = 65 from rfl, show (UInt32.toBitVec 90).toNat = 90 from rfl,
    show (UInt32.toBitVec 97).toNat = 97 from rfl,
    show (UInt32.toBitVec 122).toNat = 122 from rfl] at *
  omega

/-- A decimal digit character is not a dot. -/
theorem ne_dot_of_isDigit (c : Char) (h : c.isDigit = true) : c ≠ '.' := by
  rintro rfl; exact absurd h (by decide)

/-- A decimal digit character is not the letter x. -/
theorem ne_x_of_isDigit (c : Char) (h : c.isDigit = true) : c ≠ 'x' := by
  rintro rfl; exact absurd h (by decide)

/-- Unfolding equation for `splitDot` on a cons cell. -/
theorem splitDot_cons (c : Char) (rest : List Char) :
    splitDot (c :: rest) =
      match splitDot rest with
      | [] => [[]]
      | p :: ps => if c = '.' then [] :: p :: ps else (c :: p) :: ps := rfl

/-- The split of a token is never the empty list of parts. -/
theorem splitDot_ne_nil (t : List Char) : splitDot t ≠ [] := by
  cases t with
  | nil => simp [splitDot]
  | cons c rest =>
    rw [splitDot_cons]
    cases splitDot rest with
    | nil => simp
    | cons p ps =>
      by_cases hc : c = '.' <;> simp [hc]

/-- A token without dots splits into the single part equal to itself. -/
theorem splitDot_eq_self_of_no_dot (t : List Char) (h : ∀ c ∈ t, c ≠ '.') :
    splitDot t = [t] := by
  induction t with
  | nil => rfl
  | cons c rest ih =>
    rw [splitDot_cons, ih (fun x hx => h x (List.mem_cons_of_mem c hx))]
    simp [h c (List.mem_cons_self c rest)]

/-- Every character of a token is a dot or belongs to one of the parts of
its split. -/
theorem mem_dot_or_mem_splitDot (t : List Char) (c : Char) (hc : c ∈ t) :
    c = '.' ∨ ∃ p ∈ splitDot t, c ∈ p := by
  induction t with
  | nil => cases hc
  | cons a rest ih =>
    rcases List.mem_cons.mp hc with rfl | hmem
    · by_cases ha : c = '.'
      · exact Or.inl ha
      · right
        rw [splitDot_cons]
        rcases hsd : splitDot rest with _ | ⟨p, ps⟩
        · exact absurd hsd (splitDot_ne_nil rest)
        · simp only [if_neg ha]
          exact ⟨c :: p, List.mem_cons_self _ _, List.mem_cons_self _ _⟩
    · rcases ih hmem with h1 | ⟨p, hp, hcp⟩
      · exact Or.inl h1
      · right
        rw [splitDot_cons]
        rcases hsd : splitDot rest with _ | ⟨q, qs⟩
        · exact absurd hsd (splitDot_ne_nil rest)
        · rw [hsd] at hp
          by_cases ha : a = '.'
          · simp only [if_pos ha]
            exact ⟨p, List.mem_cons_of_mem _ hp, hcp⟩
          · simp only [if_neg ha]
            rcases List.mem_cons.mp hp with rfl | hps
            · exact ⟨a :: p, List.mem_cons_self _ _, List.mem_cons_of_mem _ hcp⟩
            · exact ⟨p, List.mem_cons_of_mem _ hps, hcp⟩

/-! ### Bounds on parsed prefix lengths and usable counts -/

/-- A contiguous-netmask prefix length is at most 32. -/
theorem prefixOfMaskInt_le (v n : Nat) (h : prefixOfMaskInt v = some n) : n ≤ 32 := by
  have hmem := List.mem_of_find?_eq_some h
  exact Nat.lt_succ_iff.mp (List.mem_range.mp hmem)

/-- Any prefix length produced by the `IPv4Network` mask parser is at
most 32. -/
theorem prefixFromString_le (m : List Char) (n : Nat) (h : prefixFromString m = some n) :
    n ≤ 32 := by
  unfold prefixFromString at h
  split at h
  · split at h
    · cases h; assumption
    · cases h
  · cases hp : parseIPv4 m with
    | none => rw [hp] at h; cases h
    | some v =>
      rw [hp] at h
      dsimp only at h
      cases hq : prefixOfMaskInt v with
      | some k => rw [hq] at h; cases h; exact prefixOfMaskInt_le v n hq
      | none => rw [hq] at h; exact prefixOfMaskInt_le _ n h

/-- Arithmetic facts about the usable-count formula for every prefix
length in range: its closed form, non-negativity, and the threshold at
which it reaches two. -/
theorem usableOf_facts :
    ∀ n, n ≤ 32 →
      usableOf n = 2 ^ (32 - n) - (if n < 31 then 2 else 0) ∧
      0 ≤ usableOf n ∧ (2 ≤ usableOf n ↔ n ≤ 31) := by decide

/-! ### Inversion lemmas for the parsers -/

/-- Inversion for a successful `network_info`: the mask token normalized,
the address parsed, the mask string produced a prefix length, and the
record is the one `mkNetworkInfo` builds. -/
theorem network_info_ok (ip tok : List Char) (info : NetworkInfo)
    (h : network_info ip tok = .ok (some info)) :
    ∃ m ipV cidr, parse_maskL tok true = .ok m ∧ parseIPv4 ip = some ipV ∧
      prefixFromString m = some cidr ∧ info = mkNetworkInfo ipV cidr := by
  unfold network_info at h
  cases hpm : parse_maskL tok true with
  | error e => rw [hpm] at h; cases h
  | ok m =>
    rw [hpm] at h
    dsimp only at h
    cases hip : parseIPv4 ip with
    | none => rw [hip] at h; dsimp only at h; cases h
    | some ipV =>
      rw [hip] at h
      cases hpf : prefixFromString m with
      | none => rw [hpf] at h; dsimp only at h; cases h
      | some cidr =>
        rw [hpf] at h
        dsimp only at h
        exact ⟨m, ipV, cidr, rfl, rfl, hpf, (Option.some.inj (Except.ok.inj h)).symm⟩

/-- Inversion for a successful `mask_to_info`. -/
theorem mask_to_info_some (m : List Char) (info : MaskInfo)
    (h : mask_to_info m = some info) :
    ∃ v cidr, parseIPv4 m = some v ∧ prefixFromString m = some cidr ∧
      info = ⟨cidr, v, 0xFFFFFFFF ^^^ v, usableOf cidr⟩ := by
  unfold mask_to_info at h
  cases hip : parseIPv4 m with
  | none => rw [hip] at h; cases h
  | some v =>
    rw [hip] at h
    dsimp only at h
    cases hpf : prefixFromString m with
    | none => rw [hpf] at h; cases h
    | some cidr =>
      rw [hpf] at h
      dsimp only at h
      exact ⟨v, cidr, rfl, rfl, (Option.some.inj h).symm⟩

/-- Inversion for a syntactically valid IPv4 token: it splits into four
valid octets. -/
theorem isValidIPv4_inv (t : List Char) (h : isValidIPv4 t = true) :
    ∃ a b c d, splitDot t = [a, b, c, d] ∧ isValidOctet a = true ∧
      isValidOctet b = true ∧ isValidOctet c = true ∧ isValidOctet d = true := by
  unfold isValidIPv4 parseIPv4 at h
  rcases hs : splitDot t with _ | ⟨a, _ | ⟨b, _ | ⟨c, _ | ⟨d, _ | ⟨e, rest⟩⟩⟩⟩⟩ <;>
    rw [hs] at h <;> dsimp only at h
  · cases h
  · cases h
  · cases h
  · cases h
  · refine ⟨a, b, c, d, rfl, ?_⟩
    by_cases hv : (isValidOctet a && isValidOctet b && isValidOctet c && isValidOctet d) = true
    · simp only [Bool.and_eq_true] at hv
      exact ⟨hv.1.1.1, hv.1.1.2, hv.1.2, hv.2⟩
    · rw [if_neg hv] at h; cases h
  · cases h

/-- Every character of a valid octet is a decimal digit. -/
theorem isDigit_of_mem_validOctet (p : List Char) (hp : isValidOctet p = true) :
    ∀ c ∈ p, c.isDigit = true := by
  cases p with
  | nil => cases hp
  | cons c rest =>
    simp only [isValidOctet, Bool.and_eq_true, List.all_eq_true] at hp
    intro x hx
    rcases List.mem_cons.mp hx with rfl | hmem
    · exact hp.1.1.1.1
    · exact hp.1.1.1.2 x hmem

/-- Every character of a valid IPv4 token is a digit or a dot. -/
theorem chars_of_isValidIPv4 (t : List Char) (h : isValidIPv4 t = true) :
    ∀ c ∈ t, c.isDigit = true ∨ c = '.' := by
  obtain ⟨a, b, cc, d, hs, ha, hb, hc, hd⟩ := isValidIPv4_inv t h
  intro c hct
  rcases mem_dot_or_mem_splitDot t c hct with rfl | ⟨p, hp, hcp⟩
  · exact Or.inr rfl
  · rw [hs] at hp
    left
    simp only [List.mem_cons, List.not_mem_nil, or_false] at hp
    rcases hp with rfl | rfl | rfl | rfl
    · exact isDigit_of_mem_validOctet _ ha c hcp
    · exact isDigit_of_mem_validOctet _ hb c hcp
    · exact isDigit_of_mem_validOctet _ hc c hcp
    · exact isDigit_of_mem_validOctet _ hd c hcp

/-- A token of digits and dots does not start with the literal `0x`. -/
theorem startsWith0x_eq_false (t : List Char)
    (h : ∀ c ∈ t, c.isDigit = true ∨ c = '.') : startsWith0x t = false := by
  cases t with
  | nil => rfl
  | cons c1 rest =>
    cases rest with
    | nil => rfl
    | cons c2 r =>
      have h2 := h c2 (List.mem_cons_of_mem _ (List.mem_cons_self _ _))
      have hne : c2 ≠ 'x' := by
        rcases h2 with hd | rfl
        · exact ne_x_of_isDigit c2 hd
        · decide
      simp [startsWith0x, hne]

/-- A token of digits and dots contains no alphabetic character. -/
theorem any_isAlpha_eq_false (t : List Char)
    (h : ∀ c ∈ t, c.isDigit = true ∨ c = '.') : t.any Char.isAlpha = false := by
  rw [← Bool.not_eq_true, List.any_eq_true]
  rintro ⟨c, hc, hal⟩
  rcases h c hc with hd | rfl
  · rw [isAlpha_eq_false_of_isDigit c hd] at hal; cases hal
  · cases hal

/-! ### Branch behaviour of `parse_maskL` -/

/-- On a token that is a syntactically valid IPv4 address, `parse_mask`
rejects with the ambiguity error unless the warning is suppressed, in
which case the token is returned unchanged. -/
theorem parse_maskL_valid_ip (t : List Char) (hip : isValidIPv4 t = true) :
    parse_maskL t false = .error .ambiguousIpInput ∧ parse_maskL t true = .ok t := by
  have hch := chars_of_isValidIPv4 t hip
  have h0 := startsWith0x_eq_false t hch
  have ha := any_isAlpha_eq_false t hch
  obtain ⟨a, b, c, d, hs, -, -, -, -⟩ := isValidIPv4_inv t hip
  constructor <;>
    simp only [parse_maskL, h0, ha, hs, hip, Bool.false_eq_true, if_false, if_true]

/-- A non-empty all-digit token whose value exceeds 32 fails with the
invalid-format error under either policy. -/
theorem parse_maskL_digits_gt32 (t : List Char) (b : Bool) (h1 : t ≠ [])
    (h2 : ∀ c ∈ t, c.isDigit = true) (h3 : 32 < digitsToNat t) :
    parse_maskL t b = .error .invalidFormat := by
  have hch : ∀ c ∈ t, c.isDigit = true ∨ c = '.' := fun c hc => Or.inl (h2 c hc)
  have h0 := startsWith0x_eq_false t hch
  have ha := any_isAlpha_eq_false t hch
  have hs := splitDot_eq_self_of_no_dot t (fun c hc => ne_dot_of_isDigit c (h2 c hc))
  have hne : t.isEmpty = false := by
    cases t with
    | nil => exact absurd rfl h1
    | cons c r => rfl
  have hall : t.all Char.isDigit = true := List.all_eq_true.mpr h2
  simp only [parse_maskL, h0, ha, hs, hne, hall, Bool.false_eq_true, if_false,
    Bool.not_false, Bool.and_self, if_true]
  rw [if_neg (by omega : ¬ digitsToNat t ≤ 32)]

/-! ### Claim C2 -/

/-- C2: for every n in [0,32], normalizing the decimal token `str(n)`
(under either warning policy) yields the dotted netmask whose 32-bit value
has exactly n leading set bits followed by 32-n clear bits, and feeding
that netmask back through the `IPv4Network` prefix parser recovers n; a
single all-digit token whose value exceeds 32 fails with the
invalid-format error. -/
theorem c2_cidr_roundtrip :
    (∀ n, n ≤ 32 →
      parse_maskL (natDecimal n) false = .ok (ipToDotted (maskOfCidr n)) ∧
      parse_maskL (natDecimal n) true = .ok (ipToDotted (maskOfCidr n)) ∧
      (∀ i, i < 32 → (maskOfCidr n).testBit i = decide (32 - n ≤ i)) ∧
      prefixFromString (ipToDotted (maskOfCidr n)) = some n) ∧
    (∀ t b, t ≠ [] → (∀ c ∈ t, c.isDigit = true) → 32 < digitsToNat t →
      parse_maskL t b = .error .invalidFormat) :=
  ⟨by decide, fun t b h1 h2 h3 => parse_maskL_digits_gt32 t b h1 h2 h3⟩

/-- Witness for C2, instantiating the round-trip at n = 24 and the
rejection at the token "33". -/
theorem c2_witness :
    (24 ≤ 32 ∧ parse_maskL (natDecimal 24) false = .ok (ipToDotted (maskOfCidr 24))) ∧
    ((("33").data ≠ [] ∧ (∀ c ∈ ("33").data, c.isDigit = true) ∧
        32 < digitsToNat (("33").data)) ∧
      parse_maskL (("33").data) false = .error .invalidFormat) :=
  ⟨⟨by decide, (c2_cidr_roundtrip.1 24 (by decide)).1⟩,
   ⟨⟨by decide, by decide, by decide⟩,
    c2_cidr_roundtrip.2 (("33").data) false (by decide) (by decide) (by decide)⟩⟩

/-! ### Claim C1 -/

/-- C1: for every syntactically valid IPv4 address and every mask token
that normalizes to a mask string recognized by the network parser,
`network_info` succeeds (host bits are cleared, never rejected) and
reports the network address as IP AND netmask, the wildcard as the
complement of the netmask, and the broadcast address as network OR
wildcard. -/
theorem c1_network_arithmetic (ip tok m : List Char) (ipV cidr : Nat)
    (hm : parse_maskL tok true = .ok m)
    (hip : parseIPv4 ip = some ipV)
    (hc : prefixFromString m = some cidr) :
    network_info ip tok = .ok (some (mkNetworkInfo ipV cidr)) ∧
    (mkNetworkInfo ipV cidr).netmask = maskOfCidr cidr ∧
    (mkNetworkInfo ipV cidr).networkAddress = ipV &&& (mkNetworkInfo ipV cidr).netmask ∧
    (mkNetworkInfo ipV cidr).wildcard = 0xFFFFFFFF ^^^ (mkNetworkInfo ipV cidr).netmask ∧
    (mkNetworkInfo ipV cidr).broadcastAddress =
      (mkNetworkInfo ipV cidr).networkAddress ||| (mkNetworkInfo ipV cidr).wildcard := by
  refine ⟨?_, rfl, rfl, rfl, rfl⟩
  unfold network_info
  rw [hm]
  dsimp only
  rw [hip, hc]

/-- Witness for C1 at computeNetworkInfo("192.168.1.10", "/24"): the CLI
passes the mask token "24"; the network address is 192.168.1.0 and the
broadcast address 192.168.1.255. -/
theorem c1_witness :
    (parse_maskL (("24").data) true = .ok (ipToDotted (maskOfCidr 24)) ∧
      parseIPv4 (("192.168.1.10").data) = some 0xC0A8010A ∧
      prefixFromString (ipToDotted (maskOfCidr 24)) = some 24) ∧
    network_info (("192.168.1.10").data) (("24").data) =
      .ok (some (mkNetworkInfo 0xC0A8010A 24)) ∧
    ipToDotted (mkNetworkInfo 0xC0A8010A 24).networkAddress = ("192.168.1.0").data ∧
    ipToDotted (mkNetworkInfo 0xC0A8010A 24).broadcastAddress = ("192.168.1.255").data :=
  ⟨⟨by decide, by decide, by decide⟩,
   (c1_network_arithmetic (("192.168.1.10").data) (("24").data)
      (ipToDotted (maskOfCidr 24)) 0xC0A8010A 24 (by decide) (by decide) (by decide)).1,
   by decide, by decide⟩

/-! ### Claim C3 -/

/-- C3: both `mask_to_info` and `network_info` report the usable host
count 2^(32-cidr) - 2 for cidr below 31 and 2^(32-cidr) for /31 and /32;
the count is never negative; concretely 254 for /24, 2 for /31 and 1
for /32. -/
theorem c3_usable_count :
    (∀ m info, mask_to_info m = some info →
      info.cidr ≤ 32 ∧
      info.usable = 2 ^ (32 - info.cidr) - (if info.cidr < 31 then 2 else 0) ∧
      0 ≤ info.usable) ∧
    (∀ ip tok info, network_info ip tok = .ok (some info) →
      info.cidr ≤ 32 ∧
      info.usable = 2 ^ (32 - info.cidr) - (if info.cidr < 31 then 2 else 0) ∧
      0 ≤ info.usable) ∧
    (network_info (("192.168.1.10").data) (("24").data) =
        .ok (some (mkNetworkInfo 0xC0A8010A 24)) ∧
      (mkNetworkInfo 0xC0A8010A 24).usable = 254) ∧
    (network_info (("10.0.0.5").data) (("31").data) =
        .ok (some (mkNetworkInfo 0x0A000005 31)) ∧
      (mkNetworkInfo 0x0A000005 31).usable = 2) ∧
    (network_info (("10.0.0.5").data) (("32").data) =
        .ok (some (mkNetworkInfo 0x0A000005 32)) ∧
      (mkNetworkInfo 0x0A000005 32).usable = 1) := by
  refine ⟨?_, ?_, ⟨by decide, by decide⟩, ⟨by decide, by decide⟩, ⟨by decide, by decide⟩⟩
  · intro m info h
    obtain ⟨v, cidr, hv, hpf, rfl⟩ := mask_to_info_some m info h
    have hle := prefixFromString_le m cidr hpf
    obtain ⟨hform, hpos, -⟩ := usableOf_facts cidr hle
    exact ⟨hle, hform, hpos⟩
  · intro ip tok info h
    obtain ⟨mm, ipV, cidr, hm, hip, hpf, rfl⟩ := network_info_ok ip tok info h
    have hle := prefixFromString_le mm cidr hpf
    obtain ⟨hform, hpos, -⟩ := usableOf_facts cidr hle
    exact ⟨hle, hform, hpos⟩

/-- Witness for C3, applying the mask-only part to the canonical /24
netmask. -/
theorem c3_witness :
    mask_to_info (ipToDotted (maskOfCidr 24)) =
      some ⟨24, 0xFFFFFF00, 0xFF, (254 : Int)⟩ ∧
    ((⟨24, 0xFFFFFF00, 0xFF, (254 : Int)⟩ : MaskInfo).cidr ≤ 32 ∧
      (⟨24, 0xFFFFFF00, 0xFF, (254 : Int)⟩ : MaskInfo).usable =
        2 ^ (32 - (⟨24, 0xFFFFFF00, 0xFF, (254 : Int)⟩ : MaskInfo).cidr) -
          (if (⟨24, 0xFFFFFF00, 0xFF, (254 : Int)⟩ : MaskInfo).cidr < 31 then 2 else 0) ∧
      0 ≤ (⟨24, 0xFFFFFF00, 0xFF, (254 : Int)⟩ : MaskInfo).usable) :=
  ⟨by decide, c3_usable_count.1 (ipToDotted (maskOfCidr 24)) _ (by decide)⟩

/-! ### Claim C4 -/

/-- Projection equation for the first usable address of the derived
network record. -/
theorem mkNetworkInfo_firstUsable (ipV cidr : Nat) :
    (mkNetworkInfo ipV cidr).firstUsable =
      if 2 ≤ usableOf cidr then
        (if cidr = 31 then (mkNetworkInfo ipV cidr).networkAddress
         else if cidr = 32 then (mkNetworkInfo ipV cidr).networkAddress
         else (mkNetworkInfo ipV cidr).networkAddress + 1)
      else (mkNetworkInfo ipV cidr).networkAddress := rfl

/-- Projection equation for the last usable address of the derived
network record. -/
theorem mkNetworkInfo_lastUsable (ipV cidr : Nat) :
    (mkNetworkInfo ipV cidr).lastUsable =
      if 2 ≤ usableOf cidr then
        (if cidr = 31 then (mkNetworkInfo ipV cidr).broadcastAddress
         else if cidr = 32 then (mkNetworkInfo ipV cidr).networkAddress
         else (mkNetworkInfo ipV cidr).broadcastAddress - 1)
      else (mkNetworkInfo ipV cidr).broadcastAddress := rfl

/-- C4 counterexample: the claim "whenever usableCount is at least 2 the
reported firstUsable equals networkAddress+1" fails on the code at the
/31 input 10.0.0.5/31, whose usable count is 2 while the first usable
address reported is the network address itself. -/
theorem c4_counterexample :
    ¬ (∀ ip tok info, network_info ip tok = .ok (some info) →
        2 ≤ info.usable → info.firstUsable = info.networkAddress + 1) := by
  intro hclaim
  have h := hclaim (("10.0.0.5").data) (("31").data) (mkNetworkInfo 0x0A000005 31)
    (by decide) (by decide)
  exact absurd h (by decide)

/-- C4 (amended): for prefixes up to /30 the reported first and last
usable addresses are networkAddress+1 and broadcastAddress-1; for /31,
although the usable count is 2, they are the network and broadcast
addresses themselves; when the usable count is below 2 (the /32 case)
they default to the network and broadcast addresses. -/
theorem c4_usable_range (ip tok : List Char) (info : NetworkInfo)
    (h : network_info ip tok = .ok (some info)) :
    (info.cidr ≤ 30 → info.firstUsable = info.networkAddress + 1 ∧
      info.lastUsable = info.broadcastAddress - 1) ∧
    (info.cidr = 31 → 2 ≤ info.usable ∧ info.firstUsable = info.networkAddress ∧
      info.lastUsable = info.broadcastAddress) ∧
    (info.usable < 2 → info.firstUsable = info.networkAddress ∧
      info.lastUsable = info.broadcastAddress) := by
  obtain ⟨m, ipV, cidr, hm, hip, hpf, rfl⟩ := network_info_ok ip tok info h
  have hle := prefixFromString_le m cidr hpf
  obtain ⟨-, -, hthr⟩ := usableOf_facts cidr hle
  refine ⟨?_, ?_, ?_⟩
  · intro h30
    have hc30 : cidr ≤ 30 := h30
    have h2 : 2 ≤ usableOf cidr := hthr.mpr (by omega)
    have h31 : cidr ≠ 31 := by omega
    have h32 : cidr ≠ 32 := by omega
    rw [mkNetworkInfo_firstUsable, mkNetworkInfo_lastUsable, if_pos h2, if_pos h2,
      if_neg h31, if_neg h31, if_neg h32, if_neg h32]
    exact ⟨rfl, rfl⟩
  · intro hc
    have hc31 : cidr = 31 := hc
    subst hc31
    have h2 : (2 : Int) ≤ usableOf 31 := by decide
    rw [mkNetworkInfo_firstUsable, mkNetworkInfo_lastUsable, if_pos h2, if_pos h2,
      if_pos rfl, if_pos rfl]
    exact ⟨h2, rfl, rfl⟩
  · intro hu
    have hu2 : usableOf cidr < 2 := hu
    rw [mkNetworkInfo_firstUsable, mkNetworkInfo_lastUsable,
      if_neg (by omega : ¬ (2 : Int) ≤ usableOf cidr),
      if_neg (by omega : ¬ (2 : Int) ≤ usableOf cidr)]
    exact ⟨rfl, rfl⟩

/-- Witness for C4 at the /31 network 10.0.0.4/31. -/
theorem c4_witness :
    network_info (("10.0.0.5").data) (("31").data) =
      .ok (some (mkNetworkInfo 0x0A000005 31)) ∧
    (((mkNetworkInfo 0x0A000005 31).cidr ≤ 30 →
        (mkNetworkInfo 0x0A000005 31).firstUsable =
          (mkNetworkInfo 0x0A000005 31).networkAddress + 1 ∧
        (mkNetworkInfo 0x0A000005 31).lastUsable =
          (mkNetworkInfo 0x0A000005 31).broadcastAddress - 1) ∧
      ((mkNetworkInfo 0x0A000005 31).cidr = 31 →
        2 ≤ (mkNetworkInfo 0x0A000005 31).usable ∧
        (mkNetworkInfo 0x0A000005 31).firstUsable =
          (mkNetworkInfo 0x0A000005 31).networkAddress ∧
        (mkNetworkInfo 0x0A000005 31).lastUsable =
          (mkNetworkInfo 0x0A000005 31).broadcastAddress) ∧
      ((mkNetworkInfo 0x0A000005 31).usable < 2 →
        (mkNetworkInfo 0x0A000005 31).firstUsable =
          (mkNetworkInfo 0x0A000005 31).networkAddress ∧
        (mkNetworkInfo 0x0A000005 31).lastUsable =
          (mkNetworkInfo 0x0A000005 31).broadcastAddress)) :=
  ⟨by decide, c4_usable_range (("10.0.0.5").data) (("31").data) _ (by decide)⟩

/-! ### Claims C5 and C6 -/

/-- C5: a token with exactly four dot-separated parts that parses as a
syntactically valid IPv4 address fails with the ambiguous-IP error under
the warn-and-reject policy and is returned unchanged under the
accept-as-literal policy. -/
theorem c5_ambiguous_ip_policy (t : List Char)
    (_h4 : (splitDot t).length = 4) (hip : isValidIPv4 t = true) :
    parse_maskL t false = .error .ambiguousIpInput ∧ parse_maskL t true = .ok t :=
  parse_maskL_valid_ip t hip

/-- Witness for C5 at the token 192.168.1.1. -/
theorem c5_witness :
    ((splitDot (("192.168.1.1").data)).length = 4 ∧
      isValidIPv4 (("192.168.1.1").data) = true) ∧
    (parse_maskL (("192.168.1.1").data) false = .error .ambiguousIpInput ∧
      parse_maskL (("192.168.1.1").data) true = .ok (("192.168.1.1").data)) :=
  ⟨⟨by decide, by decide⟩, c5_ambiguous_ip_policy (("192.168.1.1").data) (by decide) (by decide)⟩

/-- C6 counterexample: normalizing the canonical dotted netmask
255.255.255.0 under the default warn-and-reject policy does not return it
unchanged; it fails with the ambiguous-IP error, because every canonical
dotted netmask is itself a syntactically valid IPv4 address. -/
theorem c6_counterexample :
    parse_maskL (("255.255.255.0").data) false = .error .ambiguousIpInput := by decide

/-- C6 (amended): under the accept-as-literal policy every canonical
dotted netmask is returned unchanged (idempotent passthrough); under the
warn-and-reject policy it instead fails with the ambiguous-IP error. -/
theorem c6_canonical_passthrough (n : Nat) (h : n ≤ 32) :
    parse_maskL (ipToDotted (maskOfCidr n)) true = .ok (ipToDotted (maskOfCidr n)) ∧
    parse_maskL (ipToDotted (maskOfCidr n)) false = .error .ambiguousIpInput := by
  revert h
  revert n
  decide

/-- Witness for C6 at the /24 netmask 255.255.255.0. -/
theorem c6_witness :
    24 ≤ 32 ∧
    (parse_maskL (ipToDotted (maskOfCidr 24)) true = .ok (ipToDotted (maskOfCidr 24)) ∧
      parse_maskL (ipToDotted (maskOfCidr 24)) false = .error .ambiguousIpInput) :=
  ⟨by decide, c6_canonical_passthrough 24 (by decide)⟩

/-! ### Claim C7 -/

/-- C7 counterexample: the 4-part token -1.0.0.0 is not a valid IPv4
address, its first octet parses to the integer -1 which is not in the
range 0..255, yet `parse_mask` accepts the token unchanged: only the
upper bound 255 is checked. -/
theorem c7_counterexample :
    parse_maskL (("-1.0.0.0").data) false = .ok (("-1.0.0.0").data) ∧
    pyIntValue (("-1").data) = some (-1) ∧ ¬ ((0 : Int) ≤ -1) :=
  ⟨by decide, by decide, by decide⟩

/-- C7 (amended): for a 4-part dotted token that is not a syntactically
valid IPv4 address, `parse_mask` succeeds (returning the token unchanged)
exactly when every part parses as a Python integer of value at most 255;
parts below 0 are not rejected, and a part that is not parseable as an
integer also fails with the invalid-format error.  The token 256.0.0.0 in
particular fails with the invalid-format error. -/
theorem c7_literal_mask_validation (t : List Char) (b : Bool)
    (h0 : startsWith0x t = false) (ha : t.any Char.isAlpha = false)
    (h4 : (splitDot t).length = 4) (hip : isValidIPv4 t = false) :
    (parse_maskL t b = .ok t ↔
      ∃ vs, (splitDot t).mapM pyIntValue = some vs ∧
        vs.all (fun v => v ≤ 255) = true) ∧
    parse_maskL (("256.0.0.0").data) b = .error .invalidFormat := by
  obtain ⟨a, p2, p3, p4, hs⟩ : ∃ a p2 p3 p4, splitDot t = [a, p2, p3, p4] := by
    rcases hsd : splitDot t with _ | ⟨a, _ | ⟨p2, _ | ⟨p3, _ | ⟨p4, _ | ⟨p5, r⟩⟩⟩⟩⟩ <;>
      rw [hsd] at h4 <;> simp at h4
    exact ⟨a, p2, p3, p4, rfl⟩
  constructor
  · simp only [parse_maskL, h0, ha, hs, hip, Bool.false_eq_true, if_false]
    cases hmm : ([a, p2, p3, p4] : List (List Char)).mapM pyIntValue with
    | none => simp [hmm]
    | some vs =>
      simp only [hmm, Option.some.injEq, exists_eq_left]
      by_cases hany : vs.any (fun v => 255 < v) = true
      · rw [if_pos hany]
        simp only [List.any_eq_true, decide_eq_true_eq] at hany
        obtain ⟨v, hv, hvlt⟩ := hany
        constructor
        · intro hcontr; cases hcontr
        · rintro ⟨vs2, rfl, hall⟩
          simp only [List.all_eq_true, decide_eq_true_eq] at hall
          exact absurd (hall v hv) (by omega)
      · rw [if_neg hany]
        simp only [Bool.not_eq_true, List.any_eq_false, decide_eq_false_iff_not,
          not_lt] at hany
        constructor
        · intro _
          refine ⟨vs, rfl, ?_⟩
          simp only [List.all_eq_true, decide_eq_true_eq]
          exact fun v hv => hany v hv
        · intro _; rfl
  · cases b <;> decide

/-- Witness for C7 at the token -1.0.0.0 under the warn-and-reject
policy. -/
theorem c7_witness :
    (startsWith0x (("-1.0.0.0").data) = false ∧
      (("-1.0.0.0").data).any Char.isAlpha = false ∧
      (splitDot (("-1.0.0.0").data)).length = 4 ∧
      isValidIPv4 (("-1.0.0.0").data) = false) ∧
    ((parse_maskL (("-1.0.0.0").data) false = .ok (("-1.0.0.0").data) ↔
        ∃ vs, (splitDot (("-1.0.0.0").data)).mapM pyIntValue = some vs ∧
          vs.all (fun v => v ≤ 255) = true) ∧
      parse_maskL (("256.0.0.0").data) false = .error .invalidFormat) :=
  ⟨⟨by decide, by decide, by decide, by decide⟩,
   c7_literal_mask_validation (("-1.0.0.0").data) false
     (by decide) (by decide) (by decide) (by decide)⟩

/-! ### Claims C9 and C10 -/

/-- C9: the code accepts non-contiguous netmasks, contradicting the
canonical-netmask invariant.  The hex token 0xFF00FF00 is normalized
successfully to the dotted mask 255.0.255.0 even under the warn-and-reject
policy, the same dotted literal passes normalization under the
accept-as-literal policy, and that 32-bit value is not of the
ones-then-zeros form for any prefix length. -/
theorem c9_noncontiguous_accepted :
    parse_maskL (("0xFF00FF00").data) false = .ok (("255.0.255.0").data) ∧
    parse_maskL (("255.0.255.0").data) true = .ok (("255.0.255.0").data) ∧
    (∀ n, n ≤ 32 → maskOfCidr n ≠ 0xFF00FF00) ∧
    prefixOfMaskInt 0xFF00FF00 = none :=
  ⟨by decide, by decide, by decide, by decide⟩

/-- C10: there are 4-part dotted tokens that are not valid IPv4 address
strings yet are returned unchanged by `parse_mask` (only the upper octet
bound is checked); feeding them onward makes `mask_to_info` and
`network_info` raise unhandled exceptions (modelled as `none`) rather
than a classified error.  Shown at 010.0.0.0 (leading zero) and
-1.0.0.0 (negative octet). -/
theorem c10_unvalidated_literal :
    parse_maskL (("010.0.0.0").data) true = .ok (("010.0.0.0").data) ∧
    parse_maskL (("010.0.0.0").data) false = .ok (("010.0.0.0").data) ∧
    isValidIPv4 (("010.0.0.0").data) = false ∧
    mask_to_info (("010.0.0.0").data) = none ∧
    network_info (("1.2.3.4").data) (("010.0.0.0").data) = .ok none ∧
    parse_maskL (("-1.0.0.0").data) true = .ok (("-1.0.0.0").data) ∧
    mask_to_info (("-1.0.0.0").data) = none := by decide

/-! ### Claim C8: hex round trip -/

/-- Facts about the rendering of one hex digit: it is recognized as a hex
digit, its value is recovered, and it is neither whitespace nor an
underscore. -/
theorem hexDigitChar_facts :
    ∀ d, d < 16 → isHexDig (hexDigitChar d) = true ∧ hexDigitVal (hexDigitChar d) = d ∧
      wsChar (hexDigitChar d) = false ∧ hexDigitChar d ≠ '_' := by decide

/-- Every character of a hex rendering is the rendering of a digit
below 16. -/
theorem hexChars_mem (v : Nat) :
    ∀ c ∈ hexChars v, ∃ d, d < 16 ∧ c = hexDigitChar d := by
  intro c hc
  unfold hexChars at hc
  by_cases h0 : v = 0
  · rw [if_pos h0] at hc
    rcases List.mem_singleton.mp hc with rfl
    exact ⟨0, by omega, by decide⟩
  · rw [if_neg h0] at hc
    rw [List.mem_reverse] at hc
    obtain ⟨d, hd, rfl⟩ := List.mem_map.mp hc
    exact ⟨d, Nat.digits_lt_base (by omega) hd, rfl⟩

/-- The hex rendering of a value is never empty. -/
theorem hexChars_ne_nil (v : Nat) : hexChars v ≠ [] := by
  unfold hexChars
  by_cases h0 : v = 0
  · rw [if_pos h0]; simp
  · rw [if_neg h0]
    simp only [ne_eq, List.reverse_eq_nil_iff, List.map_eq_nil_iff]
    exact Nat.digits_ne_nil_iff_ne_zero.mpr h0

/-- Trimming trailing whitespace from a whitespace-free list is the
identity. -/
theorem trimRightWS_eq_self (l : List Char) (h : ∀ c ∈ l, wsChar c = false) :
    trimRightWS l = l := by
  induction l with
  | nil => rfl
  | cons c rest ih =>
    show (let r := trimRightWS rest;
      if r.isEmpty then (if wsChar c then [] else [c]) else c :: r) = c :: rest
    rw [ih (fun x hx => h x (List.mem_cons_of_mem c hx))]
    cases rest with
    | nil => simp [h c (List.mem_cons_self c [])]
    | cons d r2 => rfl

/-- Unfolding equation for the underscore-scanner on a cons cell. -/
theorem isHexUDAux_cons (c : Char) (rest : List Char) :
    isHexUDAux (c :: rest) =
      if c = '_' then
        (match rest with
         | [] => false
         | d :: r2 => isHexDig d && isHexUDAux r2)
      else isHexDig c && isHexUDAux rest := by
  cases rest <;> rfl

/-- The underscore-scanner accepts any list of hex digits containing no
underscore. -/
theorem isHexUDAux_of_all (l : List Char)
    (h : ∀ c ∈ l, isHexDig c = true ∧ c ≠ '_') : isHexUDAux l = true := by
  induction l with
  | nil => rfl
  | cons c rest ih =>
    obtain ⟨hd, hu⟩ := h c (List.mem_cons_self c rest)
    rw [isHexUDAux_cons, if_neg hu, hd, ih (fun x hx => h x (List.mem_cons_of_mem c hx))]
    rfl

/-- A non-empty list of hex digits with no underscore passes the hex-run
recognizer. -/
theorem isHexUD_of_all (l : List Char) (hne : l ≠ [])
    (h : ∀ c ∈ l, isHexDig c = true ∧ c ≠ '_') : isHexUD l = true := by
  cases l with
  | nil => exact absurd rfl hne
  | cons c rest =>
    obtain ⟨hd, -⟩ := h c (List.mem_cons_self c rest)
    show (isHexDig c && isHexUDAux rest) = true
    rw [hd, isHexUDAux_of_all rest (fun x hx => h x (List.mem_cons_of_mem c hx))]
    rfl

/-- Folding the hex digits of a most-significant-first rendering recovers
the little-endian digit value. -/
theorem hexFromDigits_map_reverse (L : List Nat) (h : ∀ d ∈ L, d < 16) :
    hexFromDigits ((L.map hexDigitChar).reverse) = Nat.ofDigits 16 L := by
  induction L with
  | nil => rfl
  | cons d L ih =>
    have hd := h d (List.mem_cons_self d L)
    rw [List.map_cons, List.reverse_cons]
    show hexFromDigits (((L.map hexDigitChar).reverse) ++ [hexDigitChar d]) = _
    unfold hexFromDigits
    rw [List.foldl_append]
    have hfold := ih (fun x hx => h x (List.mem_cons_of_mem d hx))
    unfold hexFromDigits at hfold
    rw [hfold, Nat.ofDigits_cons]
    simp only [List.foldl_cons, List.foldl_nil]
    rw [(hexDigitChar_facts d hd).2.1]
    ring

/-- Python `int(s, 16)` recovers the value of a rendered hex token. -/
theorem pyHexValue_hexToken (v : Nat) : pyHexValue (hexToken v) = some v := by
  have hmem : ∀ c ∈ hexChars v, isHexDig c = true ∧ c ≠ '_' ∧ wsChar c = false := by
    intro c hc
    obtain ⟨d, hd, rfl⟩ := hexChars_mem v c hc
    obtain ⟨h1, -, h3, h4⟩ := hexDigitChar_facts d hd
    exact ⟨h1, h4, h3⟩
  have htrim : trimRightWS (hexChars v) = hexChars v :=
    trimRightWS_eq_self _ (fun c hc => (hmem c hc).2.2)
  have hud : isHexUD (hexChars v) = true :=
    isHexUD_of_all _ (hexChars_ne_nil v) (fun c hc => ⟨(hmem c hc).1, (hmem c hc).2.1⟩)
  have htail : isHexTail (hexChars v) = true := by
    rcases hch : hexChars v with _ | ⟨c, r⟩
    · exact absurd hch (hexChars_ne_nil v)
    · have hu : c ≠ '_' := by
        have := (hmem c (by rw [hch]; exact List.mem_cons_self c r)).2.1
        exact this
      show (if c = '_' then isHexUD r else isHexUD (c :: r)) = true
      rw [if_neg hu, ← hch, hud]
  have hfil : (hexChars v).filter (fun c => c ≠ '_') = hexChars v := by
    rw [List.filter_eq_self]
    intro c hc
    simpa using (hmem c hc).2.1
  show (let r := trimRightWS (hexChars v);
    if isHexTail r then some (hexFromDigits (r.filter (fun c => c ≠ '_'))) else none) = some v
  rw [htrim]
  show (if isHexTail (hexChars v) then
    some (hexFromDigits ((hexChars v).filter (fun c => c ≠ '_'))) else none) = some v
  rw [htail, if_pos rfl, hfil]
  by_cases h0 : v = 0
  · subst h0; rfl
  · unfold hexChars
    rw [if_neg h0, hexFromDigits_map_reverse _ (fun d hd => Nat.digits_lt_base (by omega) hd),
      Nat.ofDigits_digits]

/-- The first branch of `parse_mask` on a rendered hex token: format the
32-bit value as dotted decimal, or fail when it does not fit. -/
theorem parse_maskL_hexToken (v : Nat) (b : Bool) :
    parse_maskL (hexToken v) b =
      if v ≤ 0xFFFFFFFF then .ok (ipToDotted v) else .error .invalidFormat := by
  have hsw : startsWith0x (hexToken v) = true := rfl
  unfold parse_maskL
  rw [hsw, if_pos rfl, pyHexValue_hexToken v]

/-- C8: every token consisting of `0x` followed by the hex rendering of a
value is parsed as that hexadecimal integer and, when it fits in 32 bits,
returned formatted as a dotted-decimal netmask; a value beyond 32 bits
fails with the invalid-format error, as does a `0x` token with non-hex
digits.  The rule precedes the alphabetic rejection: 0xFFFFFF00 contains
alphabetic characters yet is normalized to 255.255.255.0. -/
theorem c8_hex_form :
    (∀ v b, v ≤ 0xFFFFFFFF → parse_maskL (hexToken v) b = .ok (ipToDotted v)) ∧
    (∀ v b, 0xFFFFFFFF < v → parse_maskL (hexToken v) b = .error .invalidFormat) ∧
    parse_maskL (("0xFFFFFF00").data) false = .ok (("255.255.255.0").data) ∧
    startsWith0x (("0xFFFFFF00").data) = true ∧
    (("0xFFFFFF00").data).any Char.isAlpha = true ∧
    parse_maskL (("0xZZ").data) false = .error .invalidFormat := by
  refine ⟨?_, ?_, by decide, by decide, by decide, by decide⟩
  · intro v b hv
    rw [parse_maskL_hexToken, if_pos hv]
  · intro v b hv
    rw [parse_maskL_hexToken, if_neg (by omega)]

/-- Witness for C8, instantiating the hex rule at the in-range value
0xFFFFFF00 and the out-of-range value 0x100000000. -/
theorem c8_witness :
    (0xFFFFFF00 ≤ 0xFFFFFFFF ∧
      parse_maskL (hexToken 0xFFFFFF00) false = .ok (ipToDotted 0xFFFFFF00)) ∧
    (0xFFFFFFFF < 0x100000000 ∧
      parse_maskL (hexToken 0x100000000) true = .error .invalidFormat) :=
  ⟨⟨by decide, c8_hex_form.1 0xFFFFFF00 false (by decide)⟩,
   ⟨by decide, c8_hex_form.2.1 0x100000000 true (by decide)⟩⟩
